import Mathlib

/-!
Verification development for the cleaner-adblock repository.

JavaScript strings are modelled as lists of characters (`JStr`), with the
string operations the code uses (trim, split, includes, startsWith, replace
of the leading patterns, toLowerCase over the ASCII range) defined explicitly.
Regular-expression matches used by the code are modelled by equivalent
character-list scanners; each definition carries a comment naming the source
function it embeds.
-/

namespace CleanerAdblock

/-- JavaScript strings, modelled as lists of characters. -/
abbrev JStr := List Char

/-- Converts a Lean string literal into the character-list model. -/
def js (s : String) : JStr := s.data

/-- Whitespace characters recognised by JavaScript trim and the regex class \s
(restricted to the ASCII range that occurs in filter lists). -/
def isWhitespaceJ (c : Char) : Bool :=
  c = ' ' || c = '\t' || c = '\n' || c = '\x0d' || c = '\x0b' || c = '\x0c'

/-- JavaScript String.prototype.trim. -/
def trimJ (s : JStr) : JStr :=
  ((s.dropWhile isWhitespaceJ).reverse.dropWhile isWhitespaceJ).reverse

/-- Does s start with p (JavaScript String.prototype.startsWith). -/
def startsJ : JStr → JStr → Bool
  | _, [] => true
  | [], _ :: _ => false
  | c :: s, d :: p => c = d && startsJ s p

/-- Does s end with p (JavaScript String.prototype.endsWith). -/
def endsJ (s p : JStr) : Bool := startsJ s.reverse p.reverse

/-- Substring containment (JavaScript String.prototype.includes). -/
def includesJ : JStr → JStr → Bool
  | [], pat => pat.isEmpty
  | c :: t, pat => startsJ (c :: t) pat || includesJ t pat

/-- Single-character containment, as used by calls like domain.includes('.'). -/
def hasCharJ (s : JStr) (c : Char) : Bool := s.any (fun x => x = c)

/-- JavaScript String.prototype.split with a one-character separator. -/
def splitChar (sep : Char) : JStr → List JStr
  | [] => [[]]
  | c :: t =>
    let r := splitChar sep t
    if c = sep then [] :: r
    else
      match r with
      | [] => [[c]]
      | h :: rest => (c :: h) :: rest

/-- JavaScript Array.prototype.join with a one-character separator. -/
def joinChar (sep : Char) : List JStr → JStr
  | [] => []
  | [x] => x
  | x :: y :: rest => x ++ sep :: joinChar sep (y :: rest)

/-- ASCII lowercasing of one character, the behaviour of
String.prototype.toLowerCase on the characters appearing in filter lists. -/
def charLower (c : Char) : Char :=
  if 65 ≤ c.toNat ∧ c.toNat ≤ 90 then Char.ofNat (c.toNat + 32) else c

/-- ASCII model of JavaScript String.prototype.toLowerCase. -/
def toLowerJ (s : JStr) : JStr := s.map charLower

/-- Membership in a JavaScript Set of strings (Set.prototype.has, exact
string equality); the set is modelled by the list of its elements. -/
def listHas (set : List JStr) (x : JStr) : Bool := set.any (fun y => y = x)

/-- Digit character, the regex class \d. -/
def isDigitJ (c : Char) : Bool := 48 ≤ c.toNat && c.toNat ≤ 57

/-- The character class [a-z0-9.-] from the pattern
`domainCharPattern = /^[a-z0-9.-]+$/` in cleaner-adblock.js. -/
def isDomainChar (c : Char) : Bool :=
  (97 ≤ c.toNat && c.toNat ≤ 122) || isDigitJ c || c = '.' || c = '-'

/-- Test of `domainCharPattern = /^[a-z0-9.-]+$/`: nonempty and all
characters in the class. -/
def domainCharsOk (s : JStr) : Bool := !s.isEmpty && s.all isDomainChar

/-- Test of `ipv4Pattern = /^(\d{1,3}\.){3}\d{1,3}$/` from cleaner-adblock.js:
exactly four dot-separated groups of one to three digits. -/
def ipv4Ok (s : JStr) : Bool :=
  let parts := splitChar '.' s
  parts.length = 4 && parts.all (fun p => 1 ≤ p.length && p.length ≤ 3 && p.all isDigitJ)

/-- Embeds `isValidDomain` from cleaner-adblock.js. -/
def isValidDomain (domain : JStr) : Bool :=
  if domain.isEmpty then false
  else if !hasCharJ domain '.' then false
  else if hasCharJ domain ':' then false
  else
    let lower := toLowerJ domain
    if endsJ lower (js ".onion") then false
    else if ipv4Ok lower then false
    else if !domainCharsOk lower then false
    else true

/-- Embeds `truncateError` from cleaner-adblock.js. The message is already a
string here, so the String(...) coercion is the identity; the empty string is
the only falsy string, giving the 'Unknown error' default; maxLength is an
integer, so Math.floor(Number(maxLength)) is the identity and the NaN branch
cannot arise. JavaScript substring clamps a negative end index to 0, which
Int.toNat reproduces. -/
def truncateError (message : JStr) (maxLength : Int := 120) : JStr :=
  let msg := if message.isEmpty then js "Unknown error" else message
  let safeMaxLength : Int := if maxLength ≤ 0 then 120 else maxLength
  if (msg.length : Int) ≤ safeMaxLength then msg
  else msg.take (safeMaxLength - 3).toNat ++ js "..."

/-- The leading www. strip `domain.replace(/^www\./, '')`. -/
def stripWww (s : JStr) : JStr :=
  if startsJ s (js "www.") then s.drop 4 else s

/-- The built-in fallback set of multi-label suffixes from cleaner-adblock.js
(used when multi_label_suffixes.json cannot be loaded). -/
def fallbackTLDs : List JStr :=
  [js "co.uk", js "com.nz", js "com.au", js "co.za", js "com.br"]

/-- The trailing n parts, Array.prototype.slice(-n) for n less than the
array length. -/
def lastN (n : Nat) (l : List JStr) : List JStr := l.drop (l.length - n)

/-- Embeds `getBaseDomain` (identical in cleaner-adblock.js and
lib/domain-utils.js), parameterised by the loaded multi-label suffix table. -/
def getBaseDomain (table : List JStr) (domain : JStr) : JStr :=
  let d := stripWww domain
  let parts := splitChar '.' d
  if parts.length ≤ 2 then d
  else if 3 < parts.length && listHas table (joinChar '.' (lastN 3 parts)) then
    joinChar '.' (lastN 4 parts)
  else if 2 < parts.length && listHas table (joinChar '.' (lastN 2 parts)) then
    joinChar '.' (lastN 3 parts)
  else
    joinChar '.' (lastN 2 parts)

/-- Embeds `isSimilarDomainRedirect` from cleaner-adblock.js, with the
IGNORE_SIMILAR global passed explicitly. -/
def isSimilarDomainRedirect (table : List JStr) (ignoreSimilar : Bool)
    (originalDomain finalDomain : JStr) : Bool :=
  if !ignoreSimilar then false
  else getBaseDomain table originalDomain = getBaseDomain table finalDomain

/-! ## Rule Parser (extractDomains and parseSimpleDomains, cleaner-adblock.js) -/

/-- The comment guard of extractDomains: empty after trim, or starting with
an exclamation mark or an opening square bracket. -/
def commentGuard (l : JStr) : Bool :=
  l.isEmpty || startsJ l (js "!") || startsJ l (js "[")

/-- A character of the middle run of the separator regex #[@$%?]*#. -/
def isMidSep (c : Char) : Bool := c = '@' || c = '$' || c = '%' || c = '?'

/-- Whether the text after the non-#$ head matches the separator alternation
(?:#[@$%?]*#|\$\$) of the Adguard and cosmetic rule regexes. The head class
[^#$]+ is maximal, so the run after a leading hash is followed by a hash
exactly when the regex matches. -/
def cosmeticSepOk : JStr → Bool
  | '#' :: t => startsJ (t.dropWhile isMidSep) (js "#")
  | '$' :: '$' :: _ => true
  | _ => false

/-- The capture of `line.match(/^([^#$]+)(?:#[@$%?]*#|\$\$)/)`: the maximal
nonempty head of non-hash non-dollar characters, provided the separator
alternation follows. -/
def adguardCapture (l : JStr) : Option JStr :=
  let p := l.takeWhile (fun c => c ≠ '#' && c ≠ '$')
  if !p.isEmpty && cosmeticSepOk (l.drop p.length) then some p else none

/-- Per-candidate cleaning shared by the Adguard branch and the uBlock
cosmetic fallback branch of extractDomains: skip wildcards, strip leading
dots and tildes, then require nonempty, a dot, length at least 4, and
isValidDomain. -/
def cleanCosmeticCandidate (d : JStr) : Option JStr :=
  if hasCharJ d '*' then none
  else
    let d := d.dropWhile (fun c => c = '.' || c = '~')
    if !d.isEmpty && hasCharJ d '.' && decide (4 ≤ d.length) && isValidDomain d then
      some d
    else none

/-- A character the regex class [^,\s$] of the domain= value accepts. -/
def isParamChar (c : Char) : Bool := !(c = ',' || isWhitespaceJ c || c = '$')

/-- The capture of `line.match(/domain=([^,\s$]+)/)`: the leftmost occurrence
of domain= that is followed by at least one value character. -/
def findDomainEq : JStr → Option JStr
  | [] => none
  | c :: t =>
    if startsJ (c :: t) (js "domain=") then
      let v := ((c :: t).drop 7).takeWhile isParamChar
      if v.isEmpty then findDomainEq t else some v
    else findDomainEq t

/-- Per-candidate cleaning of the domain= branch of extractDomains: trim,
skip wildcards and negations, strip leading dots, then the same validity
conjunction as the cosmetic branches. -/
def cleanParamCandidate (d : JStr) : Option JStr :=
  let d := trimJ d
  if hasCharJ d '*' || startsJ d (js "~") then none
  else
    let d := d.dropWhile (fun c => c = '.')
    if !d.isEmpty && hasCharJ d '.' && decide (4 ≤ d.length) && isValidDomain d then
      some d
    else none

/-- A character the case-insensitive regex class [a-z0-9.-] of the network
anchor accepts. -/
def isAnchorChar (c : Char) : Bool :=
  (97 ≤ c.toNat && c.toNat ≤ 122) || (65 ≤ c.toNat && c.toNat ≤ 90) ||
    isDigitJ c || c = '.' || c = '-'

/-- The capture of `line.match(/\|\|([a-z0-9.-]+)/i)`: the leftmost double
bar followed by at least one anchor character; the capture is the maximal
run of anchor characters. -/
def findAnchor : JStr → Option JStr
  | [] => none
  | [_] => none
  | c :: c2 :: t =>
    if c = '|' && c2 = '|' then
      let run := t.takeWhile isAnchorChar
      if run.isEmpty then findAnchor (c2 :: t) else some run
    else findAnchor (c2 :: t)

/-- The capture of `line.match(/^([^#\s]+?)(?:##(?:\+js\()?|#@#|##\^)/)`:
the lazy group cannot contain a hash, so it runs exactly to the first hash;
the optional +js( and the ##^ alternative impose nothing beyond ## itself. -/
def ublockCapture (l : JStr) : Option JStr :=
  let p := l.takeWhile (fun c => c ≠ '#')
  if p.isEmpty || p.any isWhitespaceJ then none
  else
    let rest := l.drop p.length
    if startsJ rest (js "##") || startsJ rest (js "#@#") then some p else none

/-- The Adguard-grammar domains of a (trimmed) line, the first block of
extractDomains. -/
def adguardDomains (l : JStr) : List JStr :=
  match adguardCapture l with
  | some p => ((splitChar ',' p).map trimJ).filterMap cleanCosmeticCandidate
  | none => []

/-- The network-grammar domains of a (trimmed) line: the domain= parameter
entries followed by the double-bar anchor host, the second and third blocks
of extractDomains, which share one accumulator in the source. -/
def networkDomains (l : JStr) : List JStr :=
  let fromParam :=
    match findDomainEq l with
    | some v => (splitChar '|' v).filterMap cleanParamCandidate
    | none => []
  let fromAnchor :=
    if includesJ l (js "||") then
      match findAnchor l with
      | some d => if !hasCharJ d '*' && isValidDomain d then [d] else []
      | none => []
    else []
  fromParam ++ fromAnchor

/-- The uBlock cosmetic fallback domains of a (trimmed) line, the final
block of extractDomains. -/
def fallbackDomains (l : JStr) : List JStr :=
  match ublockCapture l with
  | some p => ((splitChar ',' p).map trimJ).filterMap cleanCosmeticCandidate
  | none => []

/-- Embeds `extractDomains` from cleaner-adblock.js: trim, comment guard,
then the Adguard grammar (short-circuiting when it yields any domain), then
the combined network grammars (short-circuiting likewise), then the uBlock
cosmetic fallback. -/
def extractDomains (line : JStr) : List JStr :=
  if commentGuard (trimJ line) then []
  else if !(adguardDomains (trimJ line)).isEmpty then adguardDomains (trimJ line)
  else if !(networkDomains (trimJ line)).isEmpty then networkDomains (trimJ line)
  else fallbackDomains (trimJ line)

/-- The scheme strip `domain.replace(/^https?:\/\//, '')`. -/
def stripScheme (d : JStr) : JStr :=
  if startsJ d (js "http://") then d.drop 7
  else if startsJ d (js "https://") then d.drop 8
  else d

/-- The per-candidate body of the parseSimpleDomains loop: skip empty
entries, strip the scheme, the path (split('/')[0]) and the port
(split(':')[0]), then validate and lowercase. -/
def cleanSimpleCandidate (d : JStr) : Option JStr :=
  if d.isEmpty then none
  else
    let d := stripScheme d
    let d := (splitChar '/' d).headD []
    let d := (splitChar ':' d).headD []
    if !d.isEmpty && isValidDomain d then some (toLowerJ d) else none

/-- Embeds `parseSimpleDomains` from cleaner-adblock.js. -/
def parseSimpleDomains (line : JStr) : List JStr :=
  if (trimJ line).isEmpty || startsJ (trimJ line) (js "#") ||
      startsJ (trimJ line) (js "!") || startsJ (trimJ line) (js "//") then []
  else ((splitChar ',' (trimJ line)).map trimJ).filterMap cleanSimpleCandidate

/-! ## List Rewriter (lib/export.js) -/

/-- Embeds `extractDomainsFromLine` from lib/export.js. Unlike the Rule
Parser's extractDomains, the three grammars all contribute (a Set union,
modelled as the concatenation of the added elements) and every added domain
is lowercased; there is no isValidDomain check. -/
def extractDomainsFromLine (line : JStr) : List JStr :=
  if commentGuard (trimJ line) then []
  else
    let cosmetic :=
      match adguardCapture line with
      | some p =>
        ((splitChar ',' p).map trimJ).filterMap fun d =>
          let d := d.dropWhile (fun c => c = '.' || c = '~')
          if hasCharJ d '*' then none
          else if !d.isEmpty && hasCharJ d '.' then some (toLowerJ d) else none
      | none => []
    let fromParam :=
      match findDomainEq line with
      | some v =>
        (splitChar '|' v).filterMap fun d =>
          let d := (trimJ d).dropWhile (fun c => c = '.' || c = '~')
          if !d.isEmpty && !hasCharJ d '*' && hasCharJ d '.' then some (toLowerJ d)
          else none
      | none => []
    let fromAnchor :=
      if includesJ line (js "||") then
        match findAnchor line with
        | some d => if !hasCharJ d '*' && hasCharJ d '.' then [toLowerJ d] else []
        | none => []
      else []
    cosmetic ++ fromParam ++ fromAnchor

/-- The predicate of the filter in cleanDomainParameter: an entry is kept
when, after trimming, stripping leading dots and tildes and lowercasing, it
is a wildcard or is not in the removal set. -/
def keepParamEntry (removal : List JStr) (d : JStr) : Bool :=
  let c := toLowerJ ((trimJ d).dropWhile (fun ch => ch = '.' || ch = '~'))
  hasCharJ c '*' || !listHas removal c

/-- The replacement `line.replace(/domain=[^,\s$]+/, ...)`: the leftmost
domain= with a nonempty value has its value replaced by repl. -/
def replaceDomainEq (repl : JStr) : JStr → JStr
  | [] => []
  | c :: t =>
    if startsJ (c :: t) (js "domain=") then
      let v := ((c :: t).drop 7).takeWhile isParamChar
      if v.isEmpty then c :: replaceDomainEq repl t
      else js "domain=" ++ repl ++ ((c :: t).drop 7).drop v.length
    else c :: replaceDomainEq repl t

/-- Embeds `cleanDomainParameter` from lib/export.js (the version taking the
networkDomainDead flag). none models the null return that deletes the line. -/
def cleanDomainParameter (line : JStr) (domainsToRemove : List JStr)
    (networkDomainDead : Bool) : Option JStr :=
  if !includesJ line (js "domain=") then some line
  else
    match findDomainEq line with
    | none => some line
    | some domainParam =>
      let domainList := splitChar '|' domainParam
      let cleanedDomains := domainList.filter (keepParamEntry domainsToRemove)
      if cleanedDomains.isEmpty then
        if includesJ line (js "||") && !networkDomainDead then some line
        else none
      else if cleanedDomains.length = domainList.length then some line
      else some (replaceDomainEq (joinChar '|' cleanedDomains) line)

/-- The predicate of the filter in cleanCosmeticDomains: the entry (already
trimmed by the split) is kept when, after stripping leading dots and tildes
and lowercasing, it is a wildcard or is not in the removal set. -/
def keepCosmeticEntry (removal : List JStr) (d : JStr) : Bool :=
  let c := toLowerJ (d.dropWhile (fun ch => ch = '.' || ch = '~'))
  hasCharJ c '*' || !listHas removal c

/-- Embeds `cleanCosmeticDomains` from lib/export.js. The second capture
group of its regex is the separator together with the rest of the line. -/
def cleanCosmeticDomains (line : JStr) (domainsToRemove : List JStr) : Option JStr :=
  match adguardCapture line with
  | none => some line
  | some domainPart =>
    let rulePart := line.drop domainPart.length
    let domainList := (splitChar ',' domainPart).map trimJ
    let cleanedDomains := domainList.filter (keepCosmeticEntry domainsToRemove)
    if cleanedDomains.isEmpty then none
    else some (joinChar ',' cleanedDomains ++ rulePart)

/-- Whether the cosmetic-rule regex of exportCleanedList matches the line
(the guard before cleanCosmeticDomains is called). -/
def cosmeticMatches (l : JStr) : Bool := (adguardCapture l).isSome

/-- The networkDomainDead computation of exportCleanedList: the double-bar
anchor host, lowercased, is in the removal set. -/
def anchorIsDead (removal : List JStr) (line : JStr) : Bool :=
  if includesJ line (js "||") then
    match findAnchor line with
    | some h => listHas removal (toLowerJ h)
    | none => false
  else false

/-- The per-line body of the exportCleanedList loop in lib/export.js: some
gives the line written to the output (possibly rewritten), none means the
line is removed. -/
def processLine (removal : List JStr) (line : JStr) : Option JStr :=
  if commentGuard (trimJ line) then some line
  else
    let step1 : Option (JStr × Bool) :=
      if includesJ line (js "domain=") then
        match cleanDomainParameter line removal (anchorIsDead removal line) with
        | none => none
        | some pl => some (pl, true)
      else some (line, false)
    match step1 with
    | none => none
    | some (pl, hasDomainParam) =>
      let step2 : Option JStr :=
        if cosmeticMatches pl then cleanCosmeticDomains pl removal
        else some pl
      match step2 with
      | none => none
      | some pl2 =>
        if hasDomainParam then some pl2
        else if (extractDomainsFromLine pl2).any (listHas removal) then none
        else some pl2

/-- The line transformation of exportCleanedList over a whole file, given
the combined removal set: each input line is kept, rewritten or dropped by
processLine. -/
def exportLines (removal : List JStr) (lines : List JStr) : List JStr :=
  lines.filterMap (processLine removal)

/-! ## Classifier (checkDomain, cleaner-adblock.js)

The external page fetch is modelled by one outcome per variant: either a
response (status code, final URL, the host name the URL constructor parses
out of it, and the page content) or a raised transport error carrying a
message. checkDomain consumes the outcomes of its variants strictly in
order. -/

/-- What one navigation attempt produced when it did not throw. finalHost
is the hostname property of new URL(finalUrl), which the code computes in
its extractDomain helper; URL parsing itself is external to this model. -/
structure FetchResponse where
  statusCode : Option Nat
  finalUrl : JStr
  finalHost : JStr
  content : JStr

/-- One attempt either returns a response or raises an error message. -/
inductive FetchOutcome
  | ok (r : FetchResponse)
  | err (msg : JStr)

/-- The classification a task resolves to: active carries no record; dead
and redirect mirror the data objects the code builds. -/
inductive CheckOutcome
  | active
  | dead (domain : JStr) (statusCode : Option Nat) (reason : JStr)
  | redirect (domain finalDomain originalUrl finalUrl : JStr) (statusCode : Option Nat)
deriving DecidableEq

/-- The string of a status code in a template literal, with the JavaScript
falsy fallback: `HTTP ${statusCode || 'timeout/unreachable'}`. -/
def statusText : Option Nat → JStr
  | none => js "timeout/unreachable"
  | some s => if s = 0 then js "timeout/unreachable" else Nat.toDigits 10 s

/-- The certificate-error test on a caught message in checkDomain. -/
def isCertMsg (msg : JStr) : Bool :=
  includesJ msg (js "ERR_CERT") || includesJ msg (js "SSL") ||
    includesJ msg (js "certificate")

/-- The navigation-timeout test on a caught message in checkDomain. -/
def isNavTimeoutMsg (msg : JStr) : Bool := includesJ msg (js "Navigation timeout of")

/-- The connection-class test on a caught message in checkDomain: a generic
timeout substring, name resolution failure, or a refused, timed out, reset
or unreachable connection. -/
def isConnMsg (msg : JStr) : Bool :=
  includesJ msg (js "timeout") || includesJ msg (js "ERR_NAME_NOT_RESOLVED") ||
    includesJ msg (js "ERR_CONNECTION_REFUSED") ||
    includesJ msg (js "ERR_CONNECTION_TIMED_OUT") ||
    includesJ msg (js "ERR_CONNECTION_RESET") ||
    includesJ msg (js "ERR_ADDRESS_UNREACHABLE")

/-- The anti-bot 403 signature test in checkDomain. -/
def isAntiBotSig (r : FetchResponse) : Bool :=
  includesJ r.content (js "Access Denied") &&
    (includesJ r.content (js "You don't have permission to access") ||
      includesJ r.content (js "Reference #") ||
      includesJ r.content (js "errors.edgesuite.net") ||
      includesJ r.finalUrl (js "errors.edgesuite.net"))

/-- One loop iteration of checkDomain for one variant: some is an immediate
return, none is the continue that advances to the next variant. -/
def checkAttempt (table : List JStr) (ignoreSimilar : Bool)
    (domain variant : JStr) (isLast : Bool) : FetchOutcome → Option CheckOutcome
  | .ok r =>
    let statusCode := r.statusCode
    let hasContent := decide (500 < r.content.length)
    let notErrorPage := !includesJ r.finalUrl (js "about:blank")
    let pageActuallyLoaded := hasContent && notErrorPage
    let is403 := statusCode = some 403
    let isTrulyDead :=
      match statusCode with
      | some s => decide (400 ≤ s) && s ≠ 403
      | none => true
    if is403 && pageActuallyLoaded then some .active
    else if is403 && isAntiBotSig r then some .active
    else if is403 && !isLast then none
    else if isTrulyDead && !isLast then none
    else
      let isDead := isTrulyDead || (is403 && isLast)
      let url := js "https://" ++ variant
      let originalDomain := stripWww variant
      let finalDomain := stripWww r.finalHost
      let isRedirecting := originalDomain ≠ finalDomain && !isDead
      let isSimilarRedirect := isRedirecting &&
        isSimilarDomainRedirect table ignoreSimilar originalDomain finalDomain
      if isDead then
        some (.dead domain statusCode (js "HTTP " ++ statusText statusCode))
      else if isRedirecting && !isSimilarRedirect then
        some (.redirect domain finalDomain url r.finalUrl statusCode)
      else some .active
  | .err msg =>
    let isDead := !isCertMsg msg && !isNavTimeoutMsg msg && isConnMsg msg
    if isDead && !isLast then none
    else if isDead then some (.dead domain none (truncateError msg))
    else some .active

/-- Embeds the variant loop of `checkDomain` from cleaner-adblock.js: the
variants are tried strictly in order with their fetch outcomes; the final
fallback return fires only when the variants list is exhausted without an
attempt returning, which for a nonempty list never happens. -/
def checkDomain (table : List JStr) (ignoreSimilar : Bool) (domain : JStr) :
    List (JStr × FetchOutcome) → CheckOutcome
  | [] => .dead domain none (js "All variants failed")
  | (variant, o) :: rest =>
    match checkAttempt table ignoreSimilar domain variant rest.isEmpty o with
    | some result => result
    | none => checkDomain table ignoreSimilar domain rest

/-! ## General lemmas about the string model -/

theorem hasCharJ_iff {s : JStr} {c : Char} : hasCharJ s c = true ↔ c ∈ s := by
  simp [hasCharJ]

theorem splitChar_ne_nil (sep : Char) (s : JStr) : splitChar sep s ≠ [] := by
  induction s with
  | nil => exact fun h => List.noConfusion h
  | cons c t ih =>
    simp only [splitChar]
    split
    · exact fun h => List.noConfusion h
    · cases h : splitChar sep t with
      | nil => exact absurd h ih
      | cons a b => exact fun h2 => List.noConfusion h2

theorem mem_splitChar_not_sep {sep : Char} {s p : JStr}
    (h : p ∈ splitChar sep s) : sep ∉ p := by
  induction s generalizing p with
  | nil =>
    have hp : p ∈ [([] : JStr)] := h
    have : p = [] := by simpa using hp
    simp [this]
  | cons c t ih =>
    by_cases hc : c = sep
    · have hrw : splitChar sep (c :: t) = [] :: splitChar sep t := by
        simp only [splitChar]
        rw [if_pos hc]
      rw [hrw] at h
      rcases List.mem_cons.mp h with h' | h'
      · simp [h']
      · exact ih h'
    · cases hsp : splitChar sep t with
      | nil => exact absurd hsp (splitChar_ne_nil sep t)
      | cons a b =>
        have hrw : splitChar sep (c :: t) = (c :: a) :: b := by
          simp only [splitChar]
          rw [if_neg hc, hsp]
        rw [hrw] at h
        have ha : a ∈ splitChar sep t := by
          rw [hsp]
          exact List.mem_cons_self a b
        rcases List.mem_cons.mp h with h' | h'
        · subst h'
          intro hm
          rcases List.mem_cons.mp hm with h'' | h''
          · exact hc h''.symm
          · exact ih ha h''
        · have hb : p ∈ splitChar sep t := by
            rw [hsp]
            exact List.mem_cons_of_mem a h'
          exact ih hb

theorem splitChar_of_not_mem {sep : Char} {p : JStr} (h : sep ∉ p) :
    splitChar sep p = [p] := by
  induction p with
  | nil => rfl
  | cons c t ih =>
    have hc : ¬ c = sep := by
      intro hh
      subst hh
      exact h (List.mem_cons_self c t)
    have ht : splitChar sep t = [t] := ih (fun hm => h (List.mem_cons_of_mem c hm))
    simp only [splitChar]
    rw [if_neg hc, ht]

theorem splitChar_append_sep {sep : Char} {p : JStr} (rest : JStr) (h : sep ∉ p) :
    splitChar sep (p ++ sep :: rest) = p :: splitChar sep rest := by
  induction p with
  | nil =>
    show splitChar sep (sep :: rest) = [] :: splitChar sep rest
    simp [splitChar]
  | cons c t ih =>
    have hc : ¬ c = sep := by
      intro hh
      subst hh
      exact h (List.mem_cons_self c t)
    have ih' : splitChar sep (t ++ sep :: rest) = t :: splitChar sep rest :=
      ih (fun hm => h (List.mem_cons_of_mem c hm))
    show splitChar sep (c :: (t ++ sep :: rest)) = (c :: t) :: splitChar sep rest
    simp only [splitChar]
    rw [if_neg hc, ih']

theorem splitChar_joinChar {sep : Char} :
    ∀ {ps : List JStr}, ps ≠ [] → (∀ p ∈ ps, sep ∉ p) →
      splitChar sep (joinChar sep ps) = ps
  | [], h, _ => absurd rfl h
  | [x], _, hall => by
    simp only [joinChar]
    exact splitChar_of_not_mem (hall x (List.mem_singleton_self x))
  | x :: y :: rest, _, hall => by
    simp only [joinChar]
    rw [splitChar_append_sep _ (hall x (List.mem_cons_self _ _))]
    rw [splitChar_joinChar (by simp) (fun p hp => hall p (List.mem_cons_of_mem x hp))]

theorem lastN_length {n : Nat} {l : List JStr} (h : n ≤ l.length) :
    (lastN n l).length = n := by
  simp only [lastN, List.length_drop]
  omega

theorem lastN_lastN {m n : Nat} {l : List JStr} (hm : m ≤ n) (hn : n ≤ l.length) :
    lastN m (lastN n l) = lastN m l := by
  simp only [lastN, List.length_drop, List.drop_drop]
  congr 1
  omega

theorem mem_of_mem_lastN {n : Nat} {l : List JStr} {p : JStr}
    (h : p ∈ lastN n l) : p ∈ l :=
  (List.drop_sublist _ _).mem h

theorem lastN_ne_nil {n : Nat} {l : List JStr} (h0 : 0 < n) (h : n ≤ l.length) :
    lastN n l ≠ [] := by
  intro hnil
  have := lastN_length h
  rw [hnil] at this
  simp at this
  omega

/-! ## Consequences of isValidDomain -/

theorem isValidDomain_spec {d : JStr} (h : isValidDomain d = true) :
    hasCharJ d ':' = false ∧ endsJ (toLowerJ d) (js ".onion") = false ∧
      domainCharsOk (toLowerJ d) = true := by
  unfold isValidDomain at h
  simp only [] at h
  split at h
  · exact absurd h (by simp)
  · split at h
    · exact absurd h (by simp)
    · split at h
      · exact absurd h (by simp)
      · split at h
        · exact absurd h (by simp)
        · split at h
          · exact absurd h (by simp)
          · split at h
            · exact absurd h (by simp)
            · rename_i h1 h2 h3 h4 h5 h6
              refine ⟨by simpa using h3, by simpa using h4, ?_⟩
              simpa using h6

theorem charLower_of_domainChar {c : Char} (h : isDomainChar c = true) :
    charLower c = c := by
  unfold charLower
  rw [if_neg]
  intro hr
  unfold isDomainChar isDigitJ at h
  simp only [Bool.or_eq_true, Bool.and_eq_true, decide_eq_true_eq] at h
  rcases h with ((h | h) | h) | h
  · omega
  · omega
  · subst h
    exact absurd hr (by decide)
  · subst h
    exact absurd hr (by decide)

theorem toLowerJ_of_charsOk {s : JStr} (h : domainCharsOk s = true) :
    toLowerJ s = s := by
  unfold domainCharsOk at h
  simp only [Bool.and_eq_true, List.all_eq_true] at h
  unfold toLowerJ
  exact List.map_congr_left (fun c hc => charLower_of_domainChar (h.2 c hc)) ▸
    List.map_id s

theorem valid_no_star {d : JStr} (h : isValidDomain d = true) :
    hasCharJ d '*' = false := by
  have hch := (isValidDomain_spec h).2.2
  unfold domainCharsOk at hch
  simp only [Bool.and_eq_true, List.all_eq_true] at hch
  by_contra hs
  have hmem : '*' ∈ d := hasCharJ_iff.mp (by
    cases hv : hasCharJ d '*'
    · exact absurd hv hs
    · rfl)
  have hmem2 : charLower '*' ∈ toLowerJ d := List.mem_map_of_mem charLower hmem
  have := hch.2 _ hmem2
  exact absurd this (by decide)

/-! ## Membership in extractDomains implies validity -/

theorem cleanCosmeticCandidate_valid {d t : JStr}
    (h : cleanCosmeticCandidate d = some t) : isValidDomain t = true := by
  unfold cleanCosmeticCandidate at h
  simp only [] at h
  split at h
  · exact absurd h (by simp)
  · split at h
    · rename_i hcond
      simp only [Bool.and_eq_true] at hcond
      cases h
      exact hcond.2
    · exact absurd h (by simp)

theorem cleanParamCandidate_valid {d t : JStr}
    (h : cleanParamCandidate d = some t) : isValidDomain t = true := by
  unfold cleanParamCandidate at h
  simp only [] at h
  split at h
  · exact absurd h (by simp)
  · split at h
    · rename_i hcond
      simp only [Bool.and_eq_true] at hcond
      cases h
      exact hcond.2
    · exact absurd h (by simp)

theorem adguardDomains_valid {l t : JStr} (h : t ∈ adguardDomains l) :
    isValidDomain t = true := by
  unfold adguardDomains at h
  split at h
  · rw [List.mem_filterMap] at h
    obtain ⟨x, _, hx⟩ := h
    exact cleanCosmeticCandidate_valid hx
  · simp at h

theorem networkDomains_valid {l t : JStr} (h : t ∈ networkDomains l) :
    isValidDomain t = true := by
  unfold networkDomains at h
  rw [List.mem_append] at h
  rcases h with h | h
  · split at h
    · rw [List.mem_filterMap] at h
      obtain ⟨x, _, hx⟩ := h
      exact cleanParamCandidate_valid hx
    · simp at h
  · split at h
    · split at h
      · split at h
        · rename_i hcond
          simp only [Bool.and_eq_true] at hcond
          rw [List.mem_singleton] at h
          exact h ▸ hcond.2
        · simp at h
      · simp at h
    · simp at h

theorem fallbackDomains_valid {l t : JStr} (h : t ∈ fallbackDomains l) :
    isValidDomain t = true := by
  unfold fallbackDomains at h
  split at h
  · rw [List.mem_filterMap] at h
    obtain ⟨x, _, hx⟩ := h
    exact cleanCosmeticCandidate_valid hx
  · simp at h

theorem extractDomains_mem_valid {line t : JStr} (h : t ∈ extractDomains line) :
    isValidDomain t = true := by
  unfold extractDomains at h
  split at h
  · simp at h
  · split at h
    · exact adguardDomains_valid h
    · split at h
      · exact networkDomains_valid h
      · exact fallbackDomains_valid h

theorem cleanSimpleCandidate_spec {d t : JStr} (h : cleanSimpleCandidate d = some t) :
    toLowerJ t = t ∧ domainCharsOk t = true := by
  unfold cleanSimpleCandidate at h
  simp only [] at h
  split at h
  · exact absurd h (by simp)
  · split at h
    · rename_i hcond
      simp only [Bool.and_eq_true] at hcond
      cases h
      have hok := (isValidDomain_spec hcond.2).2.2
      exact ⟨toLowerJ_of_charsOk hok, hok⟩
    · exact absurd h (by simp)

/-! ## Claim theorems -/

/-- C10: for a task whose variants list is empty, checkDomain consults no
fetch outcome and returns a Dead classification for the original domain with
a null status code and reason exactly 'All variants failed'. -/
theorem C10_empty_variants_dead (table : List JStr) (ignoreSimilar : Bool)
    (domain : JStr) :
    checkDomain table ignoreSimilar domain [] =
      CheckOutcome.dead domain none (js "All variants failed") := rfl

/-- C8, counterexample: truncateError does not respect every configured cap.
At cap 2 the message "abcd" is truncated to the bare ellipsis "...", whose
length 3 exceeds the cap. -/
theorem C8_counterexample :
    truncateError (js "abcd") 2 = js "..." ∧
      ¬ (truncateError (js "abcd") 2).length ≤ 2 := by decide

theorem truncate_branch_len (m : JStr) (k : Int) (hk : 3 ≤ k) :
    (((if (m.length : Int) ≤ k then m else m.take (k - 3).toNat ++ js "...") :
        JStr).length : Int) ≤ k := by
  split
  · rename_i h
    exact h
  · rename_i h
    rw [List.length_append, List.length_take]
    have h3 : (js "...").length = 3 := rfl
    rw [h3]
    push_cast
    omega

set_option maxRecDepth 8000 in
/-- C8, amended: for every message and every cap of at least 3, the result
of truncateError never exceeds the cap (the ellipsis counted inside it); and
truncateError on a 200-character string with cap 120 returns exactly 120
characters ending in the ellipsis. For caps below 3 the appended ellipsis
can exceed the cap, and a non-positive cap falls back to 120. -/
theorem C8_truncate_cap :
    (∀ (message : JStr) (maxLength : Int), 3 ≤ maxLength →
       ((truncateError message maxLength).length : Int) ≤ maxLength) ∧
    (truncateError (List.replicate 200 'x') 120).length = 120 ∧
    endsJ (truncateError (List.replicate 200 'x') 120) (js "...") = true := by
  refine ⟨?_, by decide, by decide⟩
  intro message k hk
  unfold truncateError
  simp only []
  rw [if_neg (by omega : ¬ k ≤ 0)]
  exact truncate_branch_len _ k hk

/-- C8, witness for the amended cap bound at a concrete message and cap. -/
theorem C8_witness :
    ((truncateError (js "a very long error message that overflows the cap") 10).length : Int) ≤ 10 :=
  C8_truncate_cap.1 (js "a very long error message that overflows the cap") 10 (by decide)

/-- C9: no token returned by extractDomains contains an asterisk or a colon
or ends in .onion case-insensitively. -/
theorem C9_extract_no_bad_tokens (line t : JStr) (h : t ∈ extractDomains line) :
    hasCharJ t '*' = false ∧ hasCharJ t ':' = false ∧
      endsJ (toLowerJ t) (js ".onion") = false := by
  have hv := extractDomains_mem_valid h
  obtain ⟨h1, h2, _⟩ := isValidDomain_spec hv
  exact ⟨valid_no_star hv, h1, h2⟩

/-- C9, witness: the token extracted from a concrete cosmetic rule. -/
theorem C9_witness :
    hasCharJ (js "domain.com") '*' = false ∧
      hasCharJ (js "domain.com") ':' = false ∧
      endsJ (toLowerJ (js "domain.com")) (js ".onion") = false :=
  C9_extract_no_bad_tokens (js "domain.com##.ad") (js "domain.com") (by decide)

/-- C4, counterexample: in filter-rule mode the deduplicating set receives
tokens that are not lowercase. extractDomains keeps the original casing of
the cosmetic rule prefix Example.COM. -/
theorem C4_counterexample :
    js "Example.COM" ∈ extractDomains (js "Example.COM##ad") ∧
      toLowerJ (js "Example.COM") ≠ js "Example.COM" := by decide

/-- C4, amended: domains produced by parseSimpleDomains are lowercase and
match the class [a-z0-9.-]+; domains produced by extractDomains match that
class only after lowercasing (the original casing is preserved). -/
theorem C4_lowercase_amended :
    (∀ line d, d ∈ parseSimpleDomains line →
       toLowerJ d = d ∧ domainCharsOk d = true) ∧
    (∀ line d, d ∈ extractDomains line → domainCharsOk (toLowerJ d) = true) := by
  constructor
  · intro line d hd
    unfold parseSimpleDomains at hd
    split at hd
    · simp at hd
    · rw [List.mem_filterMap] at hd
      obtain ⟨x, _, hx⟩ := hd
      exact cleanSimpleCandidate_spec hx
  · intro line d hd
    exact (isValidDomain_spec (extractDomains_mem_valid hd)).2.2

/-- C4, witness for both amended parts at concrete lines. -/
theorem C4_witness :
    (toLowerJ (js "a.com") = js "a.com" ∧ domainCharsOk (js "a.com") = true) ∧
      domainCharsOk (toLowerJ (js "B.com")) = true :=
  ⟨C4_lowercase_amended.1 (js "A.com") (js "a.com") (by decide),
   C4_lowercase_amended.2 (js "B.com##x") (js "B.com") (by decide)⟩

/-- C2, counterexample: on the spec's own scenario line the domain=
grammar yields site1.com and site2.com, yet the later double-bar anchor
grammar still contributes ads.example.net to the result. -/
theorem C2_counterexample :
    extractDomains (js "||ads.example.net^$script,domain=site1.com|site2.com") =
      [js "site1.com", js "site2.com", js "ads.example.net"] ∧
    findDomainEq (trimJ (js "||ads.example.net^$script,domain=site1.com|site2.com")) =
      some (js "site1.com|site2.com") := by decide

/-- C2, amended: the cosmetic/Adguard grammar short-circuits all later
grammars when it yields at least one valid domain; the domain= grammar and
the double-bar anchor grammar are applied together and both contribute, and
their combined nonempty result short-circuits only the final uBlock
cosmetic fallback; the scenario line yields exactly
site1.com, site2.com and ads.example.net. -/
theorem C2_priority_amended :
    (∀ line, commentGuard (trimJ line) = false →
       adguardDomains (trimJ line) ≠ [] →
       extractDomains line = adguardDomains (trimJ line)) ∧
    (∀ line, commentGuard (trimJ line) = false →
       adguardDomains (trimJ line) = [] → networkDomains (trimJ line) ≠ [] →
       extractDomains line = networkDomains (trimJ line)) ∧
    extractDomains (js "||ads.example.net^$script,domain=site1.com|site2.com") =
      [js "site1.com", js "site2.com", js "ads.example.net"] := by
  refine ⟨?_, ?_, by decide⟩
  · intro line hg ha
    unfold extractDomains
    rw [if_neg (by simp [hg]), if_pos (by simp [List.isEmpty_iff, ha])]
  · intro line hg ha hn
    unfold extractDomains
    rw [if_neg (by simp [hg]), if_neg (by simp [List.isEmpty_iff, ha]),
      if_pos (by simp [List.isEmpty_iff, hn])]

/-- C2, witness: the Adguard grammar short-circuit at a concrete line. -/
theorem C2_witness :
    extractDomains (js "a.com##x") = adguardDomains (trimJ (js "a.com##x")) :=
  C2_priority_amended.1 (js "a.com##x") (by decide) (by decide)

/-! ## Idempotence analysis of getBaseDomain -/

theorem stripWww_of_not_www {s : JStr} (h : startsJ s (js "www.") = false) :
    stripWww s = s := by
  simp [stripWww, h]

theorem joinChar_splitChar (sep : Char) (s : JStr) :
    joinChar sep (splitChar sep s) = s := by
  induction s with
  | nil => rfl
  | cons c t ih =>
    simp only [splitChar]
    split
    · rename_i hc
      cases hsp : splitChar sep t with
      | nil => exact absurd hsp (splitChar_ne_nil sep t)
      | cons a b =>
        rw [hsp] at ih
        subst hc
        exact congrArg (List.cons c) ih
    · rename_i hc
      cases hsp : splitChar sep t with
      | nil => exact absurd hsp (splitChar_ne_nil sep t)
      | cons a b =>
        rw [hsp] at ih
        cases b with
        | nil => exact congrArg (List.cons c) ih
        | cons y rest => exact congrArg (List.cons c) ih

theorem gbd_shape (table : List JStr) (d : JStr) :
    ((splitChar '.' (stripWww d)).length ≤ 2 ∧
       getBaseDomain table d = stripWww d) ∨
    (3 < (splitChar '.' (stripWww d)).length ∧
       listHas table (joinChar '.' (lastN 3 (splitChar '.' (stripWww d)))) = true ∧
       getBaseDomain table d = joinChar '.' (lastN 4 (splitChar '.' (stripWww d)))) ∨
    (2 < (splitChar '.' (stripWww d)).length ∧
       listHas table (joinChar '.' (lastN 2 (splitChar '.' (stripWww d)))) = true ∧
       getBaseDomain table d = joinChar '.' (lastN 3 (splitChar '.' (stripWww d)))) ∨
    (2 < (splitChar '.' (stripWww d)).length ∧
       getBaseDomain table d = joinChar '.' (lastN 2 (splitChar '.' (stripWww d)))) := by
  unfold getBaseDomain
  simp only []
  split
  · rename_i h1
    exact Or.inl ⟨h1, rfl⟩
  · rename_i h1
    split
    · rename_i h2
      simp only [Bool.and_eq_true, decide_eq_true_eq] at h2
      exact Or.inr (Or.inl ⟨h2.1, h2.2, rfl⟩)
    · rename_i h2
      split
      · rename_i h3
        simp only [Bool.and_eq_true, decide_eq_true_eq] at h3
        exact Or.inr (Or.inr (Or.inl ⟨h3.1, h3.2, rfl⟩))
      · rename_i h3
        exact Or.inr (Or.inr (Or.inr ⟨by omega, rfl⟩))

/-- C3, counterexample: getBaseDomain is not idempotent on every valid
domain. On a.www.example the fallback keeps the last two labels www.example,
and the second application strips the leading www. down to example. -/
theorem C3_counterexample :
    isValidDomain (js "a.www.example") = true ∧
      getBaseDomain fallbackTLDs (getBaseDomain fallbackTLDs (js "a.www.example")) ≠
        getBaseDomain fallbackTLDs (js "a.www.example") := by decide

/-- C3, amended: getBaseDomain is idempotent on every valid domain whose
base does not itself start with www. — the only failures come from the
result carrying a leading www. label that the second application strips. -/
theorem C3_base_idem (table : List JStr) (d : JStr)
    (_hv : isValidDomain d = true)
    (hw : startsJ (getBaseDomain table d) (js "www.") = false) :
    getBaseDomain table (getBaseDomain table d) = getBaseDomain table d := by
  have hnm : ∀ p ∈ splitChar '.' (stripWww d), '.' ∉ p :=
    fun p hp => mem_splitChar_not_sep hp
  rcases gbd_shape table d with ⟨hlen, hg⟩ | ⟨h3, htab, hg⟩ | ⟨h2, htab, hg⟩ | ⟨h2, hg⟩
  · rw [hg] at hw ⊢
    unfold getBaseDomain
    simp only []
    rw [stripWww_of_not_www hw, if_pos hlen]
  · rw [hg] at hw ⊢
    have hq : splitChar '.' (joinChar '.' (lastN 4 (splitChar '.' (stripWww d)))) =
        lastN 4 (splitChar '.' (stripWww d)) :=
      splitChar_joinChar (lastN_ne_nil (by omega) (by omega))
        (fun p hp => hnm p (mem_of_mem_lastN hp))
    have hlen4 : (lastN 4 (splitChar '.' (stripWww d))).length = 4 :=
      lastN_length (by omega)
    unfold getBaseDomain
    simp only []
    rw [stripWww_of_not_www hw, hq]
    rw [if_neg (by omega)]
    rw [if_pos (by
      rw [lastN_lastN (by omega) (by omega)]
      simp [htab, hlen4])]
    rw [lastN_lastN (by omega) (by omega : (4 : Nat) ≤ (splitChar '.' (stripWww d)).length)]
  · rw [hg] at hw ⊢
    have hq : splitChar '.' (joinChar '.' (lastN 3 (splitChar '.' (stripWww d)))) =
        lastN 3 (splitChar '.' (stripWww d)) :=
      splitChar_joinChar (lastN_ne_nil (by omega) (by omega))
        (fun p hp => hnm p (mem_of_mem_lastN hp))
    have hlen3 : (lastN 3 (splitChar '.' (stripWww d))).length = 3 :=
      lastN_length (by omega)
    unfold getBaseDomain
    simp only []
    rw [stripWww_of_not_www hw, hq]
    rw [if_neg (by omega)]
    rw [if_neg (by
      rw [hlen3]
      simp)]
    rw [if_pos (by
      rw [lastN_lastN (by omega) (by omega)]
      simp [htab, hlen3])]
    rw [lastN_lastN (by omega) (by omega : (3 : Nat) ≤ (splitChar '.' (stripWww d)).length)]
  · rw [hg] at hw ⊢
    have hq : splitChar '.' (joinChar '.' (lastN 2 (splitChar '.' (stripWww d)))) =
        lastN 2 (splitChar '.' (stripWww d)) :=
      splitChar_joinChar (lastN_ne_nil (by omega) (by omega))
        (fun p hp => hnm p (mem_of_mem_lastN hp))
    have hlen2 : (lastN 2 (splitChar '.' (stripWww d))).length = 2 :=
      lastN_length (by omega)
    unfold getBaseDomain
    simp only []
    rw [stripWww_of_not_www hw, hq]
    rw [if_pos (by omega)]

/-- C3, witness: idempotence at a concrete multi-label-suffix domain. -/
theorem C3_witness :
    getBaseDomain fallbackTLDs (getBaseDomain fallbackTLDs (js "shop.example.co.uk")) =
      getBaseDomain fallbackTLDs (js "shop.example.co.uk") :=
  C3_base_idem fallbackTLDs (js "shop.example.co.uk") (by decide) (by decide)

/-! ## Classifier claims -/

theorem checkDomain_cons (table : List JStr) (ig : Bool) (domain variant : JStr)
    (o : FetchOutcome) (rest : List (JStr × FetchOutcome)) :
    checkDomain table ig domain ((variant, o) :: rest) =
      match checkAttempt table ig domain variant rest.isEmpty o with
      | some result => result
      | none => checkDomain table ig domain rest := rfl

theorem checkAttempt_err_eq (table : List JStr) (ig : Bool) (domain variant : JStr)
    (isLast : Bool) (msg : JStr) :
    checkAttempt table ig domain variant isLast (.err msg) =
      (if (!isCertMsg msg && !isNavTimeoutMsg msg && isConnMsg msg) && !isLast then
         none
       else if !isCertMsg msg && !isNavTimeoutMsg msg && isConnMsg msg then
         some (.dead domain none (truncateError msg))
       else some .active) := rfl

/-- C6: a certificate-related or navigation-timeout transport error is never
classified Dead — the attempt resolves the task as Active with no record (in
particular on the last variant); a connection-class transport error (with
neither of those markers) finalizes as Dead with the truncated error text on
the last variant and advances to the next variant otherwise. -/
theorem C6_transport_errors (table : List JStr) (ig : Bool)
    (domain variant msg : JStr) (rest : List (JStr × FetchOutcome)) :
    ((isCertMsg msg = true ∨ isNavTimeoutMsg msg = true) →
       checkDomain table ig domain ((variant, .err msg) :: rest) =
         CheckOutcome.active) ∧
    (isCertMsg msg = false → isNavTimeoutMsg msg = false → isConnMsg msg = true →
       (rest = [] →
          checkDomain table ig domain ((variant, .err msg) :: rest) =
            CheckOutcome.dead domain none (truncateError msg 120)) ∧
       (rest ≠ [] →
          checkDomain table ig domain ((variant, .err msg) :: rest) =
            checkDomain table ig domain rest)) := by
  constructor
  · intro hcn
    have hdead : (!isCertMsg msg && !isNavTimeoutMsg msg && isConnMsg msg) = false := by
      rcases hcn with h | h <;> simp [h]
    rw [checkDomain_cons, checkAttempt_err_eq]
    simp [hdead]
  · intro h1 h2 h3
    have hdead : (!isCertMsg msg && !isNavTimeoutMsg msg && isConnMsg msg) = true := by
      simp [h1, h2, h3]
    constructor
    · intro hrest
      subst hrest
      rw [checkDomain_cons, checkAttempt_err_eq]
      simp [hdead]
    · intro hrest
      rw [checkDomain_cons, checkAttempt_err_eq]
      have hne : (List.isEmpty rest) = false := by
        cases rest with
        | nil => exact absurd rfl hrest
        | cons a b => rfl
      simp [hdead, hne]

/-- C6, witness: a certificate error resolves Active; a name-resolution
failure on the only variant finalizes Dead with the truncated message. -/
theorem C6_witness :
    checkDomain fallbackTLDs false (js "d.com")
        [(js "d.com", FetchOutcome.err (js "net::ERR_CERT_DATE_INVALID"))] =
      CheckOutcome.active ∧
    checkDomain fallbackTLDs false (js "d.com")
        [(js "d.com", FetchOutcome.err (js "net::ERR_NAME_NOT_RESOLVED"))] =
      CheckOutcome.dead (js "d.com") none
        (truncateError (js "net::ERR_NAME_NOT_RESOLVED") 120) :=
  ⟨(C6_transport_errors fallbackTLDs false (js "d.com") (js "d.com")
      (js "net::ERR_CERT_DATE_INVALID") []).1 (Or.inl (by decide)),
   ((C6_transport_errors fallbackTLDs false (js "d.com") (js "d.com")
      (js "net::ERR_NAME_NOT_RESOLVED") []).2 (by decide) (by decide) (by decide)).1 rfl⟩

/-- C7: an HTTP 403 attempt with a substantial body (over 500 characters)
and a final URL that is not the about:blank placeholder resolves the task as
Active; on the last variant, with no substantial body and no anti-bot
signature, the task finalizes as Dead with reason exactly HTTP 403. -/
theorem C7_http403 (table : List JStr) (ig : Bool) (domain variant : JStr)
    (r : FetchResponse) (rest : List (JStr × FetchOutcome)) :
    (r.statusCode = some 403 → 500 < r.content.length →
       includesJ r.finalUrl (js "about:blank") = false →
       checkDomain table ig domain ((variant, .ok r) :: rest) =
         CheckOutcome.active) ∧
    (r.statusCode = some 403 → r.content.length ≤ 500 → isAntiBotSig r = false →
       checkDomain table ig domain [(variant, .ok r)] =
         CheckOutcome.dead domain (some 403) (js "HTTP 403")) := by
  constructor
  · intro hsc h500 hurl
    rw [checkDomain_cons]
    simp only [checkAttempt]
    rw [hsc]
    simp [h500, hurl]
  · intro hsc hlen hanti
    rw [checkDomain_cons]
    simp only [checkAttempt]
    rw [hsc]
    have h500 : ¬ 500 < r.content.length := by omega
    have hrs : js "HTTP " ++ statusText (some 403) = js "HTTP 403" := by decide
    simp [h500, hanti, hrs]

set_option maxRecDepth 8000 in
/-- C7, witness: both 403 behaviours at concrete responses. -/
theorem C7_witness :
    checkDomain fallbackTLDs false (js "d.com")
        [(js "d.com",
          FetchOutcome.ok ⟨some 403, js "https://d.com/", js "d.com",
            List.replicate 501 'a'⟩)] =
      CheckOutcome.active ∧
    checkDomain fallbackTLDs false (js "d.com")
        [(js "d.com", FetchOutcome.ok ⟨some 403, js "https://d.com/", js "d.com", js ""⟩)] =
      CheckOutcome.dead (js "d.com") (some 403) (js "HTTP 403") :=
  ⟨(C7_http403 fallbackTLDs false (js "d.com") (js "d.com")
      ⟨some 403, js "https://d.com/", js "d.com", List.replicate 501 'a'⟩ []).1
      (by decide) (by decide) (by decide),
   (C7_http403 fallbackTLDs false (js "d.com") (js "d.com")
      ⟨some 403, js "https://d.com/", js "d.com", js ""⟩ []).2
      (by decide) (by decide) (by decide)⟩

/-! ## List Rewriter claims -/

/-- C5, counterexample: a rule whose domain= entries are all dead but whose
anchor is alive is kept by the Rewriter UNCHANGED — the dead entry dead.com
still appears verbatim in the output line, contradicting the claim that the
parameter is emptied. -/
theorem C5_counterexample :
    processLine [js "dead.com"] (js "||alive.com^$domain=dead.com") =
      some (js "||alive.com^$domain=dead.com") ∧
    includesJ (js "||alive.com^$domain=dead.com") (js "dead.com") = true := by decide

/-- C5, amended: for every non-comment line with a domain= parameter whose
entries all fail the keep predicate (all in the removal set, none a
wildcard), whose double-bar anchor host is not in the removal set, and which
does not also match the cosmetic grammar, the Rewriter keeps the line
unchanged — the dead entries remain in the domain= parameter — rather than
deleting the whole rule or emptying the parameter. -/
theorem C5_keep_line (removal : List JStr) (line param : JStr)
    (hne : commentGuard (trimJ line) = false)
    (hinc : includesJ line (js "domain=") = true)
    (hfind : findDomainEq line = some param)
    (hall : ∀ d ∈ splitChar '|' param, keepParamEntry removal d = false)
    (hbar : includesJ line (js "||") = true)
    (halive : anchorIsDead removal line = false)
    (hnocos : cosmeticMatches line = false) :
    processLine removal line = some line := by
  have hfilter : (splitChar '|' param).filter (keepParamEntry removal) = [] :=
    List.filter_eq_nil_iff.mpr (fun d hd => by simp [hall d hd])
  have hclean : cleanDomainParameter line removal (anchorIsDead removal line) =
      some line := by
    unfold cleanDomainParameter
    rw [hinc, hfind]
    simp [hfilter, hbar, halive]
  unfold processLine
  simp [hne, hinc, hclean, hnocos]

/-- C5, witness: the amended behaviour at the concrete rule. -/
theorem C5_witness :
    processLine [js "dead.com"] (js "||alive.com^$domain=dead.com") =
      some (js "||alive.com^$domain=dead.com") :=
  C5_keep_line [js "dead.com"] (js "||alive.com^$domain=dead.com") (js "dead.com")
    (by decide) (by decide) (by decide) (by decide) (by decide) (by decide) (by decide)

theorem extractDomainsFromLine_comment {line : JStr}
    (h : commentGuard (trimJ line) = true) :
    extractDomainsFromLine line = [] := by
  unfold extractDomainsFromLine
  rw [if_pos h]

theorem processLine_no_param (removal : List JStr) (line out : JStr)
    (hnp : includesJ line (js "domain=") = false)
    (h : processLine removal line = some out) :
    ∀ d ∈ extractDomainsFromLine out, listHas removal d = false := by
  unfold processLine at h
  simp only [] at h
  split at h
  · rename_i hcg
    cases h
    intro d hd
    rw [extractDomainsFromLine_comment hcg] at hd
    simp at hd
  · rw [if_neg (by simp [hnp])] at h
    simp only [] at h
    split at h
    · exact absurd h (by simp)
    · rename_i pl2 hcos2
      simp only [Bool.false_eq_true, if_false] at h
      split at h
      · exact absurd h (by simp)
      · rename_i hany
        cases h
        intro d hd
        rw [Bool.not_eq_true, List.any_eq_false] at hany
        simpa using hany d hd

/-- C1, counterexample: the round trip fails. A rule whose domain= entries
are all dead but whose anchor is alive is kept unchanged by the Rewriter
and re-parses (with the Rule Parser's extractDomains) to the removed domain
dead.com; and even without a domain= parameter, a cosmetic rule whose
prefix contains a dollar sign is kept although extractDomains re-parses it
to the removed domain a.com. -/
theorem C1_counterexample :
    (exportLines [js "dead.com"] [js "||alive.com^$domain=dead.com"] =
       [js "||alive.com^$domain=dead.com"] ∧
     js "dead.com" ∈ extractDomains (js "||alive.com^$domain=dead.com")) ∧
    (exportLines [js "a.com"] [js "a.com,b$c##x"] = [js "a.com,b$c##x"] ∧
     js "a.com" ∈ extractDomains (js "a.com,b$c##x")) := by decide

/-- C1, amended: for every input whose lines carry no domain= parameter and
every removal set, re-parsing the cleaned list with the Exporter's own
extractDomainsFromLine yields a domain set disjoint from the removal set;
with the Rule Parser's extractDomains, or for lines with a domain=
parameter, removed domains can survive the rewrite. -/
theorem C1_cleaned_disjoint (removal : List JStr) (lines : List JStr)
    (hnp : ∀ l ∈ lines, includesJ l (js "domain=") = false) :
    ∀ out ∈ exportLines removal lines, ∀ d ∈ extractDomainsFromLine out,
      listHas removal d = false := by
  intro out hout
  unfold exportLines at hout
  rw [List.mem_filterMap] at hout
  obtain ⟨l, hl, hpl⟩ := hout
  exact processLine_no_param removal l out (hnp l hl) hpl

/-- C1, witness: the amended round trip at a concrete one-line list. -/
theorem C1_witness :
    listHas [js "dead.com"] (js "a.com") = false :=
  C1_cleaned_disjoint [js "dead.com"] [js "a.com##x"] (by decide)
    (js "a.com##x") (by decide) (js "a.com") (by decide)

end CleanerAdblock
